import Mathlib

/-! Shallow embedding of the PyPlate core model (PyPlate.py): reagents,
solvents, stock solutions, and the plate dispensing engine, together with
proofs about the dispensing bookkeeping. Python floats are modelled as
rationals, numpy grids as functions from indices to rationals, and Python
exceptions (all ValueError in the source) as explicit error results whose
constructors classify the raise sites. -/

deriving instance DecidableEq for Except

unseal Rat.add Rat.mul Rat.sub Rat.inv

/-- Classification of the validation failures raised by the source. -/
inductive Err where
  | invalidArgument
  | invalidLocation
  | duplicateDestination
  | negativeFill
  | dilutionConsistency
  deriving DecidableEq

/-- str.split on the colon separator, written on the character list so
that it evaluates by kernel reduction. -/
def splitColonAux : List Char → List Char → List String
  | [], acc => [String.mk acc.reverse]
  | ch :: rest, acc =>
    if ch = ':' then String.mk acc.reverse :: splitColonAux rest []
    else splitColonAux rest (ch :: acc)

/-- location.split on a colon, as in get_canonical_form. -/
def splitColon (s : String) : List String := splitColonAux s.toList []

/-- Decimal digit accumulation for the integer parser. -/
def digitsVal (acc : Nat) : List Char → Option Nat
  | [] => some acc
  | ch :: rest =>
    if ch.isDigit then digitsVal (acc * 10 + (ch.toNat - 48)) rest else none

/-- Models what Python int(s) accepts on the strings this program feeds
it: an optional sign followed by at least one decimal digit (Python also
strips surrounding whitespace and allows underscores between digits; no
caller depends on those). -/
def parseInt (s : String) : Option Int :=
  match s.toList with
  | [] => none
  | ch :: rest =>
    if ch = '-' then
      match rest with
      | [] => none
      | _ :: _ => (digitsVal 0 rest).map (fun n => -(n : Int))
    else if ch = '+' then
      match rest with
      | [] => none
      | _ :: _ => (digitsVal 0 rest).map (fun n => (n : Int))
    else (digitsVal 0 (ch :: rest)).map (fun n => (n : Int))

/-- The source's is_integer helper: whether int(s) succeeds. -/
def is_integer (s : String) : Bool := (parseInt s).isSome

/-- The integer value of a string that parses as an integer. -/
def intOf (s : String) : Int := (parseInt s).getD 0

inductive ReagentType where
  | solid
  | liquid
  deriving DecidableEq

/-- A chemical (PyPlate.py Reagent).  density is present iff the reagent
is a liquid; the constructor-level checks are not needed by the claims, so
Reagent values are used directly as data. -/
structure Reagent where
  name : String
  molecular_weight : ℚ
  reagent_type : ReagentType
  density : Option ℚ
  deriving DecidableEq

/-- A solvent (PyPlate.py Solvent): a named bulk liquid supply (volume in mL). -/
structure Solvent where
  name : String
  volume : ℚ
  deriving DecidableEq

/-- A stock solution (PyPlate.py StockSolution): a Reagent or another
StockSolution dissolved in a Solvent, with concentration in mol/L and
volume in mL.  The two constructors mirror the dynamic union of the
source's what field. -/
inductive StockSolution where
  | ofReagent (what : Reagent) (concentration : ℚ) (solvent : Solvent) (volume : ℚ)
  | ofStock (what : StockSolution) (concentration : ℚ) (solvent : Solvent) (volume : ℚ)
  deriving DecidableEq

def StockSolution.concentration : StockSolution → ℚ
  | .ofReagent _ c _ _ => c
  | .ofStock _ c _ _ => c

def StockSolution.solvent : StockSolution → Solvent
  | .ofReagent _ _ s _ => s
  | .ofStock _ _ s _ => s

def StockSolution.volume : StockSolution → ℚ
  | .ofReagent _ _ _ v => v
  | .ofStock _ _ _ v => v

/-- The effective reagent: the source sets self.reagent to what.reagent,
so it is the terminal Reagent of the dilution chain. -/
def StockSolution.reagent : StockSolution → Reagent
  | .ofReagent r _ _ _ => r
  | .ofStock s _ _ _ => s.reagent

/-- The dynamic union accepted by StockSolution.__init__ for its what
argument. -/
inductive StockWhat where
  | reagent (r : Reagent)
  | stock (s : StockSolution)

/-- StockSolution.__init__ (PyPlate.py lines 123-155), with the checks in
source order: for a StockSolution base, the strictly-more-dilute check and
the same-solvent check come first, then concentration > 0, then volume > 0. -/
def mkStockSolution (what : StockWhat) (concentration : ℚ) (solvent : Solvent)
    (volume : ℚ) : Except Err StockSolution :=
  match what with
  | .reagent r =>
    if concentration ≤ 0 then .error .invalidArgument
    else if volume ≤ 0 then .error .invalidArgument
    else .ok (.ofReagent r concentration solvent volume)
  | .stock s =>
    if s.concentration ≤ concentration then .error .dilutionConsistency
    else if solvent ≠ s.solvent then .error .dilutionConsistency
    else if concentration ≤ 0 then .error .invalidArgument
    else if volume ≤ 0 then .error .invalidArgument
    else .ok (.ofStock s concentration solvent volume)

/-- The dynamic union accepted as a dispensing source: StockSolution or
Solvent. -/
inductive Source where
  | stock (s : StockSolution)
  | solvent (v : Solvent)
  deriving DecidableEq

/-- A numpy 2D array of rationals, embedded as a function on indices. -/
abbrev Grid := Nat → Nat → ℚ

/-- In-place addition g[r, c] += dv on a grid. -/
def updateGrid (g : Grid) (r c : Nat) (dv : ℚ) : Grid :=
  fun rr cc => if rr = r ∧ cc = c then g rr cc + dv else g rr cc

/-- A component of a location 2-tuple: a Python int or str. -/
inductive Coord where
  | int (i : Int)
  | str (s : String)
  deriving DecidableEq

/-- A location encoding: a 2-tuple of components, or a single string
of the form row:column. -/
inductive Loc where
  | pair (row : Coord) (column : Coord)
  | str (s : String)
  deriving DecidableEq

/-- First index of an element in a list (Python list.index together with
the membership test). -/
def idxOf {α : Type} [DecidableEq α] : List α → α → Option Nat
  | [], _ => none
  | x :: xs, a => if x = a then some 0 else (idxOf xs a).map (· + 1)

/-- In-place update of one list element by a function. -/
def modifyAt {α : Type} : List α → Nat → (α → α) → List α
  | [], _, _ => []
  | x :: xs, 0, f => f x :: xs
  | x :: xs, n + 1, f => x :: modifyAt xs n f

/-- The plate model (PyPlate.py Plate): fixed grid geometry plus the
accumulated mutable state.  volumes is in uL, moles in umol with one grid
per entry of reagents, volumes_used is the insertion-ordered supply ledger,
instructions the append-only log of canonical dispense maps. -/
structure Plate where
  name : String
  make : String
  n_rows : Nat
  row_names : List String
  max_volume_per_well : ℚ
  n_columns : Nat
  column_names : List String
  reagents : List Reagent
  volumes : Grid
  moles : List Grid
  instructions : List (Source × List ((Nat × Nat) × ℚ))
  volumes_used : List (Source × ℚ)

/-- Splits a location into its row and column components
(get_canonical_form's string preprocessing). -/
def splitLoc : Loc → Except Err (Coord × Coord)
  | .pair r c => .ok (r, c)
  | .str s =>
    match splitColon s with
    | [a, b] => .ok (.str a, .str b)
    | _ => .error .invalidLocation

/-- One axis of get_canonical_form: a name matches by first index; a
numeric string or an int is treated as a 1-indexed position within
[1, axis length]; anything else is an invalid location.  The row and
column conversions in the source are this same logic on each axis. -/
def resolveSpec (names : List String) (n : Nat) : Coord → Except Err Nat
  | .str s =>
    if s.length = 0 then .error .invalidLocation
    else
      match idxOf names s with
      | some i => .ok i
      | none =>
        if is_integer s && decide (0 < intOf s) && decide (intOf s ≤ (n : Int)) then
          .ok ((intOf s - 1).toNat)
        else .error .invalidLocation
  | .int i =>
    if i < 1 ∨ (n : Int) < i then .error .invalidLocation
    else .ok ((i - 1).toNat)

/-- Plate.get_canonical_form (PyPlate.py lines 358-435). -/
def Plate.get_canonical_form (p : Plate) (location : Loc) : Except Err (Nat × Nat) :=
  match splitLoc location with
  | .error e => .error e
  | .ok (rowSpec, colSpec) =>
    match resolveSpec p.row_names p.n_rows rowSpec with
    | .error e => .error e
    | .ok row =>
      match resolveSpec p.column_names p.n_columns colSpec with
      | .error e => .error e
      | .ok column => .ok (row, column)

/-- The per-entry format checks of add_custom: a string location must have
exactly one colon, and the volume must be non-negative. -/
def entryOk : Loc × ℚ → Bool
  | (.pair _ _, v) => decide (0 ≤ v)
  | (.str s, v) => decide ((splitColon s).length = 2) && decide (0 ≤ v)

/-- The canonicalization loop of add_custom: resolve each location in
order, rejecting a canonical well already present in the accumulated map. -/
def canonicalize (p : Plate) : List (Loc × ℚ) → List ((Nat × Nat) × ℚ) →
    Except Err (List ((Nat × Nat) × ℚ))
  | [], acc => .ok acc
  | (l, v) :: rest, acc =>
    match p.get_canonical_form l with
    | .error e => .error e
    | .ok c =>
      if c ∈ acc.map Prod.fst then .error .duplicateDestination
      else canonicalize p rest (acc ++ [(c, v)])

/-- The volume-accumulation loop of add_custom. -/
def applyVolumes (g : Grid) (cmap : List ((Nat × Nat) × ℚ)) : Grid :=
  cmap.foldl (fun gg e => updateGrid gg e.1.1 e.1.2 e.2) g

/-- The moles-accumulation loop of add_custom: each dispensed well gains
volume times concentration micromoles. -/
def applySlab (concentration : ℚ) (cmap : List ((Nat × Nat) × ℚ)) (g : Grid) : Grid :=
  cmap.foldl (fun gg e => updateGrid gg e.1.1 e.1.2 (e.2 * concentration)) g

/-- Total of a grid over the plate extent (sum over all wells). -/
def gridSum (g : Grid) (nr nc : Nat) : ℚ :=
  ∑ r ∈ Finset.range nr, ∑ c ∈ Finset.range nc, g r c

/-- All entries of a grid in row-major order. -/
def gridEntries (g : Grid) (nr nc : Nat) : List ℚ :=
  ((List.range nr).map (fun r => (List.range nc).map (fun c => g r c))).flatten

/-- np.max over a (nonempty) grid. -/
def gridMax (g : Grid) (nr nc : Nat) : ℚ :=
  (gridEntries g nr nc).foldl max ((gridEntries g nr nc).headD 0)

/-- First access to an OrderedDict key: insert it with value zero if absent. -/
def ensureKey (l : List (Source × ℚ)) (k : Source) : List (Source × ℚ) :=
  if (idxOf (l.map Prod.fst) k).isSome then l else l ++ [(k, 0)]

/-- OrderedDict increment of an existing key. -/
def addToKey (l : List (Source × ℚ)) (k : Source) (dv : ℚ) : List (Source × ℚ) :=
  l.map (fun e => if e.1 = k then (e.1, e.2 + dv) else e)

/-- One add_custom step after successful canonicalization.  This mirrors
the source statement for statement: append to the instruction log; add
each volume into the volumes grid, inserting the supply-ledger key on the
way; then add, once, the final loop value of volume times the size of the
canonical map into the ledger (the source performs this statement after
the loop, so only the last volume of the map is counted); test the
overflow warning; and for a StockSolution register the effective reagent
and accumulate micromoles. -/
def applyDispense (p : Plate) (what : Source) (cmap : List ((Nat × Nat) × ℚ)) :
    Plate × Bool :=
  let instructions2 := p.instructions ++ [(what, cmap)]
  let volumes2 := applyVolumes p.volumes cmap
  let lastVolume := (cmap.getLastD ((0, 0), 0)).2
  let volumes_used2 := addToKey (ensureKey p.volumes_used what) what
    (lastVolume * (cmap.length : ℚ))
  let warned := decide (p.max_volume_per_well < gridMax volumes2 p.n_rows p.n_columns)
  match what with
  | .solvent _ =>
    ({ p with
        instructions := instructions2,
        volumes := volumes2,
        volumes_used := volumes_used2 }, warned)
  | .stock s =>
    match idxOf p.reagents s.reagent with
    | some i =>
      ({ p with
          instructions := instructions2,
          volumes := volumes2,
          volumes_used := volumes_used2,
          moles := modifyAt p.moles i (applySlab s.concentration cmap) }, warned)
    | none =>
      ({ p with
          instructions := instructions2,
          volumes := volumes2,
          volumes_used := volumes_used2,
          reagents := p.reagents ++ [s.reagent],
          moles := modifyAt (p.moles ++ [fun _ _ => 0]) p.reagents.length
            (applySlab s.concentration cmap) }, warned)

/-- Result of a dispensing call: the plate state when the call returned
or raised, whether the overflow warning was printed, and the raised error
if any. -/
structure AddResult where
  plate : Plate
  warned : Bool
  error : Option Err

/-- Plate.add_custom (PyPlate.py lines 437-525).  Every raise in the
source happens before the first mutation, so each error path returns the
input plate. -/
def Plate.add_custom (p : Plate) (what : Source) (dispense_map : List (Loc × ℚ)) :
    AddResult :=
  if dispense_map.isEmpty then ⟨p, false, some .invalidArgument⟩
  else if dispense_map.all entryOk then
    match canonicalize p dispense_map [] with
    | .error e => ⟨p, false, some e⟩
    | .ok cmap =>
      let r := applyDispense p what cmap
      ⟨r.1, r.2, none⟩
  else ⟨p, false, some .invalidArgument⟩

/-- The initial plate state built at the end of Plate.__init__. -/
def freshPlate (name make : String) (row_names column_names : List String)
    (max_volume_per_well : ℚ) : Plate :=
  { name := name, make := make,
    n_rows := row_names.length, row_names := row_names,
    max_volume_per_well := max_volume_per_well,
    n_columns := column_names.length, column_names := column_names,
    reagents := [], volumes := fun _ _ => 0, moles := [],
    instructions := [], volumes_used := [] }

/-- The dynamic union accepted by Plate.__init__ for rows and columns:
an integer count or a list of name strings. -/
inductive AxisSpec where
  | count (n : Int)
  | names (l : List String)

/-- Axis handling of Plate.__init__: an integer count n generates the
names 1..n as strings; a list is validated (names non-blank, not parsing
as integers, no duplicates). -/
def axisNames : AxisSpec → Except Err (List String)
  | .count n =>
    if n < 1 then .error .invalidArgument
    else .ok ((List.range n.toNat).map (fun i => toString (i + 1)))
  | .names l =>
    if l.isEmpty then .error .invalidArgument
    else if l.all (fun s => (s.toList.any (fun ch => !ch.isWhitespace)) && !(is_integer s)) then
      if l.Nodup then .ok l else .error .invalidArgument
    else .error .invalidArgument

/-- Plate.__init__ (PyPlate.py lines 266-353), with the checks in source
order: name, make, rows, max volume per well, columns. -/
def mkPlate (name make : String) (rows columns : AxisSpec)
    (max_volume_per_well : ℚ) : Except Err Plate :=
  if name.length = 0 then .error .invalidArgument
  else if make.length = 0 then .error .invalidArgument
  else
    match axisNames rows with
    | .error e => .error e
    | .ok row_names =>
      if max_volume_per_well ≤ 0 then .error .invalidArgument
      else
        match axisNames columns with
        | .error e => .error e
        | .ok column_names =>
          .ok (freshPlate name make row_names column_names max_volume_per_well)

/-- The rectangle iterated by fill_block_up_to_volume, in row-major order. -/
def blockCells (first_row first_column last_row last_column : Nat) : List (Nat × Nat) :=
  ((List.range' first_row (last_row + 1 - first_row)).map (fun r =>
    (List.range' first_column (last_column + 1 - first_column)).map (fun c => (r, c)))).flatten

/-- The dispense-map construction loop of fill_block_up_to_volume: each
well needs target minus current volume; a positive need is dispensed at
the 1-indexed location, zero is skipped, and a negative need raises. -/
def buildFillMap (g : Grid) (target : ℚ) : List (Nat × Nat) → Except Err (List (Loc × ℚ))
  | [] => .ok []
  | (r, c) :: rest =>
    let required := target - g r c
    if 0 < required then
      match buildFillMap g target rest with
      | .error e => .error e
      | .ok m => .ok ((Loc.pair (.int ((r : Int) + 1)) (.int ((c : Int) + 1)), required) :: m)
    else if required < 0 then .error .negativeFill
    else buildFillMap g target rest

/-- Plate.fill_block_up_to_volume (PyPlate.py lines 556-600). -/
def Plate.fill_block_up_to_volume (p : Plate) (what : Source) (target_volume : ℚ)
    (upper_left bottom_right : Loc) : AddResult :=
  if target_volume ≤ 0 then ⟨p, false, some .invalidArgument⟩
  else if p.max_volume_per_well < target_volume then ⟨p, false, some .invalidArgument⟩
  else
    match p.get_canonical_form upper_left with
    | .error e => ⟨p, false, some e⟩
    | .ok (first_row, first_column) =>
      match p.get_canonical_form bottom_right with
      | .error e => ⟨p, false, some e⟩
      | .ok (last_row, last_column) =>
        if last_row < first_row ∨ last_column < first_column then
          ⟨p, false, some .invalidArgument⟩
        else
          match buildFillMap p.volumes target_volume
              (blockCells first_row first_column last_row last_column) with
          | .error e => ⟨p, false, some e⟩
          | .ok dm => p.add_custom what dm

/-- Structural well-formedness of a plate state: the name lists match the
grid extents and the moles stack is parallel to the reagent list.  This
holds for every plate built by mkPlate and is preserved by dispensing. -/
def Plate.WF (p : Plate) : Prop :=
  p.row_names.length = p.n_rows ∧ p.column_names.length = p.n_columns ∧
    p.moles.length = p.reagents.length

/-- The micromole count for reagent slab i at well (r, c); a slab that
does not exist reads as zero (matching a zero-initialized slab that was
never dispensed into). -/
def Plate.molesAt (p : Plate) (i r c : Nat) : ℚ :=
  (p.moles.getD i (fun _ _ => 0)) r c

/-- The volume dispensed at a canonical well by a canonical map (zero when
the well is not in the map). -/
def lookupVol : List ((Nat × Nat) × ℚ) → Nat → Nat → ℚ
  | [], _, _ => 0
  | (k, v) :: rest, r, c => if k = (r, c) then v else lookupVol rest r c

/-! Helper lemmas about the list and grid primitives. -/

theorem idxOf_lt_length {α : Type} [DecidableEq α] {l : List α} {a : α} {i : Nat}
    (h : idxOf l a = some i) : i < l.length := by
  induction l generalizing i with
  | nil => simp [idxOf] at h
  | cons x xs ih =>
    simp only [List.length_cons]
    by_cases hx : x = a
    · simp [idxOf, hx] at h
      omega
    · simp only [idxOf, if_neg hx, Option.map_eq_some'] at h
      obtain ⟨j, hj, rfl⟩ := h
      have := ih hj
      omega

theorem idxOf_append_self {α : Type} [DecidableEq α] {l : List α} {a : α}
    (h : idxOf l a = none) : idxOf (l ++ [a]) a = some l.length := by
  induction l with
  | nil => simp [idxOf]
  | cons x xs ih =>
    have hx : ¬ x = a := by
      intro hxa
      simp [idxOf, hxa] at h
    have h2 : idxOf xs a = none := by
      simpa only [idxOf, if_neg hx, Option.map_eq_none'] using h
    show idxOf (x :: (xs ++ [a])) a = some (x :: xs).length
    simp only [idxOf, if_neg hx, ih h2, Option.map_some', List.length_cons]

theorem modifyAt_length {α : Type} (l : List α) (i : Nat) (f : α → α) :
    (modifyAt l i f).length = l.length := by
  induction l generalizing i with
  | nil => rfl
  | cons x xs ih =>
    cases i with
    | zero => rfl
    | succ n => simp [modifyAt, ih]

theorem getD_modifyAt_self {α : Type} {l : List α} {i : Nat} (f : α → α) (d : α)
    (h : i < l.length) : (modifyAt l i f).getD i d = f (l.getD i d) := by
  induction l generalizing i with
  | nil => simp at h
  | cons x xs ih =>
    cases i with
    | zero => rfl
    | succ n =>
      simp only [modifyAt, List.getD_cons_succ]
      exact ih (by simpa using h)

theorem getD_modifyAt_ne {α : Type} {l : List α} {i j : Nat} (f : α → α) (d : α)
    (h : j ≠ i) : (modifyAt l i f).getD j d = l.getD j d := by
  induction l generalizing i j with
  | nil => rfl
  | cons x xs ih =>
    cases i with
    | zero =>
      cases j with
      | zero => exact absurd rfl h
      | succ m => rfl
    | succ n =>
      cases j with
      | zero => rfl
      | succ m =>
        simp only [modifyAt, List.getD_cons_succ]
        exact ih (fun hh => h (by omega))

theorem lookupVol_eq_zero {cmap : List ((Nat × Nat) × ℚ)} {r c : Nat}
    (h : (r, c) ∉ cmap.map Prod.fst) : lookupVol cmap r c = 0 := by
  induction cmap with
  | nil => rfl
  | cons e rest ih =>
    simp only [List.map_cons, List.mem_cons] at h
    push_neg at h
    simp only [lookupVol]
    rw [if_neg (by exact fun hk => h.1 (by rw [hk])), ih h.2]

theorem applySlab_cons (conc : ℚ) (e : (Nat × Nat) × ℚ) (rest : List ((Nat × Nat) × ℚ))
    (g : Grid) : applySlab conc (e :: rest) g
      = applySlab conc rest (updateGrid g e.1.1 e.1.2 (e.2 * conc)) := rfl

theorem applySlab_eval {conc : ℚ} {cmap : List ((Nat × Nat) × ℚ)} {g : Grid}
    {r c : Nat} (h : (cmap.map Prod.fst).Nodup) :
    applySlab conc cmap g r c = g r c + lookupVol cmap r c * conc := by
  induction cmap generalizing g with
  | nil => simp [applySlab, lookupVol]
  | cons e rest ih =>
    obtain ⟨⟨er, ec⟩, v⟩ := e
    simp only [List.map_cons, List.nodup_cons] at h
    rw [applySlab_cons, ih h.2]
    by_cases hk : (er, ec) = (r, c)
    · have h1 : er = r := congrArg Prod.fst hk
      have h2 : ec = c := congrArg Prod.snd hk
      subst h1; subst h2
      rw [lookupVol_eq_zero h.1]
      have hu : updateGrid g er ec (v * conc) er ec = g er ec + v * conc :=
        if_pos (And.intro rfl rfl)
      have hl : lookupVol (((er, ec), v) :: rest) er ec = v := if_pos rfl
      rw [hu, hl]
      ring
    · have hne : ¬(r = er ∧ c = ec) := by
        intro hrc
        exact hk (by rw [hrc.1, hrc.2])
      have hu : updateGrid g er ec (v * conc) r c = g r c := if_neg hne
      have hl : lookupVol (((er, ec), v) :: rest) r c = lookupVol rest r c := if_neg hk
      rw [hu, hl]

theorem gridSum_update {g : Grid} {r c nr nc : Nat} (v : ℚ)
    (hr : r < nr) (hc : c < nc) :
    gridSum (updateGrid g r c v) nr nc = gridSum g nr nc + v := by
  unfold gridSum updateGrid
  have step : ∀ rr cc : Nat, (if rr = r ∧ cc = c then g rr cc + v else g rr cc)
      = g rr cc + (if rr = r then (if cc = c then v else 0) else 0) := by
    intro rr cc
    by_cases h1 : rr = r
    · by_cases h2 : cc = c
      · simp [h1, h2]
      · simp [h1, h2]
    · simp [h1]
  simp only [step]
  rw [Finset.sum_congr rfl (fun rr _ => Finset.sum_add_distrib), Finset.sum_add_distrib]
  congr 1
  have inner : ∀ rr, (∑ cc ∈ Finset.range nc,
      (if rr = r then (if cc = c then v else 0) else 0)) = if rr = r then v else 0 := by
    intro rr
    by_cases h1 : rr = r
    · simp only [if_pos h1]
      rw [Finset.sum_ite_eq' (Finset.range nc) c (fun _ => v)]
      simp [Finset.mem_range.2 hc]
    · simp [h1]
  rw [Finset.sum_congr rfl (fun rr _ => inner rr),
    Finset.sum_ite_eq' (Finset.range nr) r (fun _ => v)]
  simp [Finset.mem_range.2 hr]

theorem applyVolumes_sum {g : Grid} {cmap : List ((Nat × Nat) × ℚ)} {nr nc : Nat}
    (h : ∀ e ∈ cmap, e.1.1 < nr ∧ e.1.2 < nc) :
    gridSum (applyVolumes g cmap) nr nc = gridSum g nr nc + (cmap.map Prod.snd).sum := by
  induction cmap generalizing g with
  | nil => simp [applyVolumes]
  | cons e rest ih =>
    simp only [applyVolumes, List.foldl_cons] at *
    rw [ih (fun x hx => h x (List.mem_cons_of_mem _ hx))]
    have hb := h e (List.mem_cons_self _ _)
    rw [gridSum_update e.2 hb.1 hb.2]
    simp only [List.map_cons, List.sum_cons]
    ring

theorem resolveSpec_lt {names : List String} {n : Nat} {sp : Coord} {i : Nat}
    (hlen : names.length = n) (h : resolveSpec names n sp = .ok i) : i < n := by
  cases sp with
  | str s =>
    simp only [resolveSpec] at h
    by_cases h0 : s.length = 0
    · rw [if_pos h0] at h
      simp at h
    · rw [if_neg h0] at h
      cases hix : idxOf names s with
      | some j =>
        simp only [hix, Except.ok.injEq] at h
        subst h
        exact hlen ▸ idxOf_lt_length hix
      | none =>
        simp only [hix] at h
        by_cases hc : (is_integer s && decide (0 < intOf s)
            && decide (intOf s ≤ (n : Int))) = true
        · rw [if_pos hc] at h
          simp only [Except.ok.injEq] at h
          subst h
          simp only [Bool.and_eq_true, decide_eq_true_eq] at hc
          omega
        · rw [if_neg hc] at h
          simp at h
  | int j =>
    simp only [resolveSpec] at h
    by_cases h0 : j < 1 ∨ (n : Int) < j
    · rw [if_pos h0] at h
      simp at h
    · rw [if_neg h0] at h
      simp only [Except.ok.injEq] at h
      subst h
      push_neg at h0
      omega

theorem get_canonical_form_lt {p : Plate} {l : Loc} {rc : Nat × Nat}
    (hwf : p.WF) (h : p.get_canonical_form l = .ok rc) :
    rc.1 < p.n_rows ∧ rc.2 < p.n_columns := by
  obtain ⟨hr, hc, -⟩ := hwf
  unfold Plate.get_canonical_form at h
  cases hs : splitLoc l with
  | error e => simp [hs] at h
  | ok specs =>
    obtain ⟨rs, cs⟩ := specs
    simp only [hs] at h
    cases h1 : resolveSpec p.row_names p.n_rows rs with
    | error e => simp [h1] at h
    | ok row =>
      simp only [h1] at h
      cases h2 : resolveSpec p.column_names p.n_columns cs with
      | error e => simp [h2] at h
      | ok column =>
        simp only [h2, Except.ok.injEq] at h
        subst h
        exact ⟨resolveSpec_lt hr h1, resolveSpec_lt hc h2⟩

theorem canonicalize_vals {p : Plate} {dm : List (Loc × ℚ)}
    {acc out : List ((Nat × Nat) × ℚ)} (h : canonicalize p dm acc = .ok out) :
    out.map Prod.snd = acc.map Prod.snd ++ dm.map Prod.snd := by
  induction dm generalizing acc with
  | nil =>
    simp only [canonicalize, Except.ok.injEq] at h
    subst h
    simp
  | cons e rest ih =>
    obtain ⟨l, v⟩ := e
    simp only [canonicalize] at h
    cases hg : p.get_canonical_form l with
    | error e2 => simp [hg] at h
    | ok c =>
      simp only [hg] at h
      by_cases hm : c ∈ acc.map Prod.fst
      · rw [if_pos hm] at h; simp at h
      · rw [if_neg hm] at h
        have := ih h
        simpa using this

theorem canonicalize_keys_nodup {p : Plate} {dm : List (Loc × ℚ)}
    {acc out : List ((Nat × Nat) × ℚ)} (h : canonicalize p dm acc = .ok out)
    (hacc : (acc.map Prod.fst).Nodup) : (out.map Prod.fst).Nodup := by
  induction dm generalizing acc with
  | nil =>
    simp only [canonicalize, Except.ok.injEq] at h
    subst h
    exact hacc
  | cons e rest ih =>
    obtain ⟨l, v⟩ := e
    simp only [canonicalize] at h
    cases hg : p.get_canonical_form l with
    | error e2 => simp [hg] at h
    | ok c =>
      simp only [hg] at h
      by_cases hm : c ∈ acc.map Prod.fst
      · rw [if_pos hm] at h; simp at h
      · rw [if_neg hm] at h
        refine ih h ?_
        rw [List.map_append]
        rw [List.nodup_append]
        refine ⟨hacc, by simp, ?_⟩
        intro x hx hxc
        simp only [List.map_cons, List.map_nil, List.mem_singleton] at hxc
        subst hxc
        exact hm hx

theorem canonicalize_bounds {p : Plate} {dm : List (Loc × ℚ)}
    {acc out : List ((Nat × Nat) × ℚ)} (hwf : p.WF)
    (h : canonicalize p dm acc = .ok out)
    (hacc : ∀ e ∈ acc, e.1.1 < p.n_rows ∧ e.1.2 < p.n_columns) :
    ∀ e ∈ out, e.1.1 < p.n_rows ∧ e.1.2 < p.n_columns := by
  induction dm generalizing acc with
  | nil =>
    simp only [canonicalize, Except.ok.injEq] at h
    subst h
    exact hacc
  | cons e rest ih =>
    obtain ⟨l, v⟩ := e
    simp only [canonicalize] at h
    cases hg : p.get_canonical_form l with
    | error e2 => simp [hg] at h
    | ok c =>
      simp only [hg] at h
      by_cases hm : c ∈ acc.map Prod.fst
      · rw [if_pos hm] at h; simp at h
      · rw [if_neg hm] at h
        refine ih h ?_
        intro x hx
        rcases List.mem_append.1 hx with hx | hx
        · exact hacc x hx
        · simp only [List.mem_singleton] at hx
          subst hx
          exact get_canonical_form_lt hwf hg

theorem canonicalize_dup_error {p : Plate} {dm : List (Loc × ℚ)}
    {acc : List ((Nat × Nat) × ℚ)}
    (hres : ∀ kv ∈ dm, ∃ rc, p.get_canonical_form kv.1 = .ok rc)
    (hbad : ¬ (dm.map (fun kv => p.get_canonical_form kv.1)).Nodup ∨
      ∃ kv ∈ dm, ∃ rc, p.get_canonical_form kv.1 = .ok rc ∧ rc ∈ acc.map Prod.fst) :
    canonicalize p dm acc = .error .duplicateDestination := by
  induction dm generalizing acc with
  | nil =>
    rcases hbad with hbad | hbad
    · exact absurd List.nodup_nil hbad
    · simp at hbad
  | cons e rest ih =>
    obtain ⟨l, v⟩ := e
    obtain ⟨rc, hrc⟩ := hres (l, v) (List.mem_cons_self _ _)
    simp only [canonicalize, hrc]
    by_cases hm : rc ∈ acc.map Prod.fst
    · rw [if_pos hm]
    · rw [if_neg hm]
      apply ih (fun kv hkv => hres kv (List.mem_cons_of_mem _ hkv))
      rcases hbad with hbad | hbad
      · by_cases hmem : (p.get_canonical_form l) ∈
            rest.map (fun kv => p.get_canonical_form kv.1)
        · right
          obtain ⟨kv, hkv, hkveq⟩ := List.mem_map.1 hmem
          refine ⟨kv, hkv, rc, ?_, ?_⟩
          · rw [hkveq, hrc]
          · simp
        · left
          rw [List.map_cons, List.nodup_cons] at hbad
          push_neg at hbad
          exact hbad hmem
      · obtain ⟨kv, hkv, rc2, hrc2, hmem2⟩ := hbad
        rcases List.mem_cons.1 hkv with heq | hkv
        · subst heq
          rw [hrc] at hrc2
          simp only [Except.ok.injEq] at hrc2
          subst hrc2
          exact absurd hmem2 hm
        · right
          refine ⟨kv, hkv, rc2, hrc2, ?_⟩
          rw [List.map_append]
          exact List.mem_append_left _ hmem2

theorem canonicalize_ne_nil {p : Plate} {dm : List (Loc × ℚ)}
    {cmap : List ((Nat × Nat) × ℚ)} (hne : dm.isEmpty = false)
    (hcan : canonicalize p dm [] = .ok cmap) : cmap.isEmpty = false := by
  cases dm with
  | nil => simp at hne
  | cons e rest =>
    have hv := canonicalize_vals hcan
    simp only [List.map_nil, List.nil_append, List.map_cons] at hv
    cases hk : cmap with
    | nil => rw [hk] at hv; simp at hv
    | cons a b => rfl

/-! Reduction lemmas for add_custom: the success path and the
pre-mutation error paths. -/

theorem add_custom_reduce {p : Plate} {what : Source} {dm : List (Loc × ℚ)}
    {cmap : List ((Nat × Nat) × ℚ)} (hne : dm.isEmpty = false)
    (hval : dm.all entryOk = true) (hcan : canonicalize p dm [] = .ok cmap) :
    p.add_custom what dm
      = ⟨(applyDispense p what cmap).1, (applyDispense p what cmap).2, none⟩ := by
  unfold Plate.add_custom
  simp only [hne, hval, hcan, Bool.false_eq_true, if_false, if_true]

theorem add_custom_error_reduce {p : Plate} {what : Source} {dm : List (Loc × ℚ)}
    {e : Err} (hne : dm.isEmpty = false) (hval : dm.all entryOk = true)
    (hcan : canonicalize p dm [] = .error e) :
    p.add_custom what dm = ⟨p, false, some e⟩ := by
  unfold Plate.add_custom
  simp only [hne, hval, hcan, Bool.false_eq_true, if_false, if_true]

/-! Field-level descriptions of the committed state. -/

theorem applyDispense_volumes (p : Plate) (what : Source)
    (cmap : List ((Nat × Nat) × ℚ)) :
    ((applyDispense p what cmap).1).volumes = applyVolumes p.volumes cmap := by
  unfold applyDispense
  cases what with
  | solvent v => rfl
  | stock s => cases h : idxOf p.reagents s.reagent <;> simp only [h]

theorem applyDispense_instructions (p : Plate) (what : Source)
    (cmap : List ((Nat × Nat) × ℚ)) :
    ((applyDispense p what cmap).1).instructions = p.instructions ++ [(what, cmap)] := by
  unfold applyDispense
  cases what with
  | solvent v => rfl
  | stock s => cases h : idxOf p.reagents s.reagent <;> simp only [h]

theorem applyDispense_volumes_used (p : Plate) (what : Source)
    (cmap : List ((Nat × Nat) × ℚ)) :
    ((applyDispense p what cmap).1).volumes_used
      = addToKey (ensureKey p.volumes_used what) what
        ((cmap.getLastD ((0, 0), 0)).2 * (cmap.length : ℚ)) := by
  unfold applyDispense
  cases what with
  | solvent v => rfl
  | stock s => cases h : idxOf p.reagents s.reagent <;> simp only [h]

theorem applyDispense_warned (p : Plate) (what : Source)
    (cmap : List ((Nat × Nat) × ℚ)) :
    (applyDispense p what cmap).2
      = decide (p.max_volume_per_well
        < gridMax (applyVolumes p.volumes cmap) p.n_rows p.n_columns) := by
  unfold applyDispense
  cases what with
  | solvent v => rfl
  | stock s => cases h : idxOf p.reagents s.reagent <;> simp only [h]

theorem applyDispense_row_names (p : Plate) (what : Source)
    (cmap : List ((Nat × Nat) × ℚ)) :
    ((applyDispense p what cmap).1).row_names = p.row_names := by
  unfold applyDispense
  cases what with
  | solvent v => rfl
  | stock s => cases h : idxOf p.reagents s.reagent <;> simp only [h]

theorem applyDispense_column_names (p : Plate) (what : Source)
    (cmap : List ((Nat × Nat) × ℚ)) :
    ((applyDispense p what cmap).1).column_names = p.column_names := by
  unfold applyDispense
  cases what with
  | solvent v => rfl
  | stock s => cases h : idxOf p.reagents s.reagent <;> simp only [h]

/-- The slab index the source uses for the effective reagent of a
dispensed stock: its first index in reagents when already registered,
else the index it receives by being appended. -/
def reagentIndex (p : Plate) (s : StockSolution) : Nat :=
  (idxOf p.reagents s.reagent).getD p.reagents.length

theorem applyDispense_reagent_found (p : Plate) (s : StockSolution)
    (cmap : List ((Nat × Nat) × ℚ)) :
    idxOf (((applyDispense p (.stock s) cmap).1).reagents) s.reagent
      = some (reagentIndex p s) := by
  cases h : idxOf p.reagents s.reagent with
  | some i =>
    have hreag : ((applyDispense p (.stock s) cmap).1).reagents = p.reagents := by
      unfold applyDispense
      simp only [h]
    rw [hreag, h]
    simp [reagentIndex, h]
  | none =>
    have hreag : ((applyDispense p (.stock s) cmap).1).reagents
        = p.reagents ++ [s.reagent] := by
      unfold applyDispense
      simp only [h]
    rw [hreag, idxOf_append_self h]
    simp [reagentIndex, h]

theorem applyDispense_moles (p : Plate) (s : StockSolution)
    (cmap : List ((Nat × Nat) × ℚ))
    (hlen : p.moles.length = p.reagents.length)
    (hnd : (cmap.map Prod.fst).Nodup) :
    (∀ r c, ((applyDispense p (.stock s) cmap).1).molesAt (reagentIndex p s) r c
        = p.molesAt (reagentIndex p s) r c + lookupVol cmap r c * s.concentration) ∧
    (∀ k, k ≠ reagentIndex p s → ∀ r c,
        ((applyDispense p (.stock s) cmap).1).molesAt k r c = p.molesAt k r c) := by
  cases h : idxOf p.reagents s.reagent with
  | some i =>
    have hj : reagentIndex p s = i := by simp [reagentIndex, h]
    have hmoles : ((applyDispense p (.stock s) cmap).1).moles
        = modifyAt p.moles i (applySlab s.concentration cmap) := by
      unfold applyDispense
      simp only [h]
    have hilt : i < p.moles.length := hlen ▸ idxOf_lt_length h
    constructor
    · intro r c
      rw [hj]
      unfold Plate.molesAt
      rw [hmoles, getD_modifyAt_self _ _ hilt, applySlab_eval hnd]
    · intro k hk r c
      rw [hj] at hk
      unfold Plate.molesAt
      rw [hmoles, getD_modifyAt_ne _ _ hk]
  | none =>
    have hj : reagentIndex p s = p.reagents.length := by simp [reagentIndex, h]
    have hmoles : ((applyDispense p (.stock s) cmap).1).moles
        = modifyAt (p.moles ++ [fun _ _ => 0]) p.reagents.length
          (applySlab s.concentration cmap) := by
      unfold applyDispense
      simp only [h]
    have hlt : p.reagents.length < (p.moles ++ [fun _ _ => (0 : ℚ)]).length := by
      simp [hlen]
    have hz : (p.moles ++ [fun _ _ => (0 : ℚ)]).getD p.reagents.length
        (fun _ _ => 0) = (fun _ _ => (0 : ℚ)) := by
      rw [List.getD_append_right _ _ _ _ (le_of_eq hlen), hlen]
      simp
    constructor
    · intro r c
      rw [hj]
      unfold Plate.molesAt
      rw [hmoles, getD_modifyAt_self _ _ hlt, hz, applySlab_eval hnd,
        List.getD_eq_default _ _ (le_of_eq hlen)]
    · intro k hk r c
      rw [hj] at hk
      unfold Plate.molesAt
      rw [hmoles, getD_modifyAt_ne _ _ hk]
      rcases Nat.lt_or_ge k p.reagents.length with hlt2 | hge
      · rw [List.getD_append _ _ _ _ (by omega)]
      · have hge2 : p.moles.length ≤ k := by omega
        rw [List.getD_append_right _ _ _ _ hge2, List.getD_eq_default _ _ hge2,
          List.getD_eq_default (d := fun _ _ => (0 : ℚ)) _ (by simp; omega)]

theorem add_custom_row_names (p : Plate) (what : Source) (dm : List (Loc × ℚ)) :
    ((p.add_custom what dm).plate).row_names = p.row_names := by
  by_cases h0 : dm.isEmpty = true
  · simp [Plate.add_custom, h0]
  · rw [Bool.not_eq_true] at h0
    by_cases h1 : dm.all entryOk = true
    · cases h2 : canonicalize p dm [] with
      | error e => rw [add_custom_error_reduce h0 h1 h2]
      | ok cmap =>
        rw [add_custom_reduce h0 h1 h2]
        exact applyDispense_row_names ..
    · rw [Bool.not_eq_true] at h1
      simp [Plate.add_custom, h0, h1]

theorem add_custom_column_names (p : Plate) (what : Source) (dm : List (Loc × ℚ)) :
    ((p.add_custom what dm).plate).column_names = p.column_names := by
  by_cases h0 : dm.isEmpty = true
  · simp [Plate.add_custom, h0]
  · rw [Bool.not_eq_true] at h0
    by_cases h1 : dm.all entryOk = true
    · cases h2 : canonicalize p dm [] with
      | error e => rw [add_custom_error_reduce h0 h1 h2]
      | ok cmap =>
        rw [add_custom_reduce h0 h1 h2]
        exact applyDispense_column_names ..
    · rw [Bool.not_eq_true] at h1
      simp [Plate.add_custom, h0, h1]

theorem mkPlate_ok {name make : String} {rows columns : AxisSpec} {mv : ℚ}
    {p : Plate} (h : mkPlate name make rows columns mv = .ok p) :
    ∃ rn cn, axisNames rows = .ok rn ∧ axisNames columns = .ok cn ∧
      p = freshPlate name make rn cn mv := by
  unfold mkPlate at h
  by_cases h1 : name.length = 0
  · rw [if_pos h1] at h
    simp at h
  · rw [if_neg h1] at h
    by_cases h2 : make.length = 0
    · rw [if_pos h2] at h
      simp at h
    · rw [if_neg h2] at h
      cases h3 : axisNames rows with
      | error e => simp [h3] at h
      | ok rn =>
        simp only [h3] at h
        by_cases h4 : mv ≤ 0
        · rw [if_pos h4] at h
          simp at h
        · rw [if_neg h4] at h
          cases h5 : axisNames columns with
          | error e => simp [h5] at h
          | ok cn =>
            simp only [h5, Except.ok.injEq] at h
            exact ⟨rn, cn, rfl, rfl, h.symm⟩

theorem axisNames_names_ok {l rn : List String}
    (h : axisNames (.names l) = .ok rn) :
    rn = l ∧ l.Nodup ∧ ∀ s ∈ l, is_integer s = false := by
  simp only [axisNames] at h
  by_cases h1 : l.isEmpty = true
  · rw [if_pos h1] at h
    simp at h
  · rw [if_neg h1] at h
    by_cases h2 : (l.all fun s => (s.toList.any (fun ch => !ch.isWhitespace)) && !(is_integer s)) = true
    · rw [if_pos h2] at h
      by_cases h3 : l.Nodup
      · rw [if_pos h3] at h
        simp only [Except.ok.injEq] at h
        refine ⟨h.symm, h3, ?_⟩
        intro s hs
        have hh := List.all_eq_true.1 h2 s hs
        simp only [Bool.and_eq_true, Bool.not_eq_true'] at hh
        exact hh.2
      · rw [if_neg h3] at h
        simp at h
    · rw [if_neg h2] at h
      simp at h

theorem axisNames_count_ok {n : Int} {rn : List String}
    (h : axisNames (.count n) = .ok rn) :
    rn = (List.range n.toNat).map (fun i => toString (i + 1)) := by
  simp only [axisNames] at h
  by_cases h1 : n < 1
  · rw [if_pos h1] at h
    simp at h
  · rw [if_neg h1] at h
    simp only [Except.ok.injEq] at h
    exact h.symm

/-- Whether a location resolves on a given plate. -/
def resolvesOk (p : Plate) (l : Loc) : Bool :=
  match p.get_canonical_form l with
  | .ok _ => true
  | .error _ => false

/-! Concrete fixtures for the counterexamples and witnesses. -/

def nmP : String := "p"
def nmM : String := "m"
def rowA : String := "A"
def rowB : String := "B"
def colX : String := "x"
def colY : String := "y"
def waterStr : String := "water"
def acidStr : String := "acid"
def locA1 : String := "A:1"
def oneStr : String := "1"
def twoStr : String := "2"

def testSolvent : Solvent := Solvent.mk waterStr 10

def testReagent : Reagent := Reagent.mk acidStr 100 .solid none

def testStock : StockSolution := .ofReagent testReagent 2 testSolvent 5

def testPlate : Plate := freshPlate nmP nmM [rowA, rowB] [colX, colY] 100

def plate50 : Plate :=
  { testPlate with volumes := fun _ _ => 50 }

def dmC1 : List (Loc × ℚ) := [(.pair (.int 1) (.int 1), 5), (.pair (.int 2) (.int 2), 7)]
def cmC1 : List ((Nat × Nat) × ℚ) := [((0, 0), 5), ((1, 1), 7)]
def dmC2 : List (Loc × ℚ) := [(.pair (.int 2) (.int 2), 10)]
def cmC2 : List ((Nat × Nat) × ℚ) := [((1, 1), 10)]
def dmC3 : List (Loc × ℚ) := [(.pair (.int 1) (.int 1), 10), (.pair (.int 1) (.int 2), 30)]
def dmC4 : List (Loc × ℚ) := [(.str locA1, 5), (.pair (.int 1) (.int 1), 5)]
def dmC5 : List (Loc × ℚ) := [(.pair (.int 1) (.int 1), 150)]
def cmC5 : List ((Nat × Nat) × ℚ) := [((0, 0), 150)]

/-! The claims. -/

/-- C1: for every successful add_custom call on a well-formed plate, the
total of the volumes grid increases by exactly the sum of the dispense
map's volumes. -/
theorem add_custom_volume_conservation (p : Plate) (what : Source)
    (dm : List (Loc × ℚ)) (cmap : List ((Nat × Nat) × ℚ)) (hwf : p.WF)
    (hne : dm.isEmpty = false) (hval : dm.all entryOk = true)
    (hcan : canonicalize p dm [] = .ok cmap) :
    (p.add_custom what dm).error = none ∧
    gridSum ((p.add_custom what dm).plate).volumes p.n_rows p.n_columns
      = gridSum p.volumes p.n_rows p.n_columns + (dm.map Prod.snd).sum := by
  rw [add_custom_reduce hne hval hcan]
  refine ⟨rfl, ?_⟩
  show gridSum ((applyDispense p what cmap).1).volumes p.n_rows p.n_columns = _
  rw [applyDispense_volumes]
  have hb := canonicalize_bounds hwf hcan (by simp)
  rw [applyVolumes_sum hb]
  have hv := canonicalize_vals hcan
  simp only [List.map_nil, List.nil_append] at hv
  rw [hv]

/-- Witness for C1: dispensing 5 uL and 7 uL onto a fresh 2 by 2 plate
raises the grid total by 12 uL. -/
theorem add_custom_volume_conservation_witness :
    (testPlate.add_custom (.solvent testSolvent) dmC1).error = none ∧
    gridSum ((testPlate.add_custom (.solvent testSolvent) dmC1).plate).volumes
        testPlate.n_rows testPlate.n_columns
      = gridSum testPlate.volumes testPlate.n_rows testPlate.n_columns
        + (dmC1.map Prod.snd).sum :=
  add_custom_volume_conservation testPlate (.solvent testSolvent) dmC1 cmC1
    (by unfold Plate.WF; exact ⟨rfl, rfl, rfl⟩) rfl (by decide) (by decide)

/-- C2: a successful StockSolution dispense adds volume times concentration
micromoles into the slab of the stock's effective reagent at exactly the
dispensed canonical wells, and leaves every other reagent slab unchanged;
the effective reagent sits at reagentIndex in the resulting reagent list. -/
theorem add_custom_moles_accumulation (p : Plate) (s : StockSolution)
    (dm : List (Loc × ℚ)) (cmap : List ((Nat × Nat) × ℚ)) (hwf : p.WF)
    (hne : dm.isEmpty = false) (hval : dm.all entryOk = true)
    (hcan : canonicalize p dm [] = .ok cmap) :
    (p.add_custom (.stock s) dm).error = none ∧
    idxOf (((p.add_custom (.stock s) dm).plate).reagents) s.reagent
      = some (reagentIndex p s) ∧
    (∀ r c, ((p.add_custom (.stock s) dm).plate).molesAt (reagentIndex p s) r c
      = p.molesAt (reagentIndex p s) r c + lookupVol cmap r c * s.concentration) ∧
    (∀ k, k ≠ reagentIndex p s → ∀ r c,
      ((p.add_custom (.stock s) dm).plate).molesAt k r c = p.molesAt k r c) := by
  obtain ⟨-, -, hlen⟩ := hwf
  have hnd := canonicalize_keys_nodup hcan (by simp)
  rw [add_custom_reduce hne hval hcan]
  have hm := applyDispense_moles p s cmap hlen hnd
  exact ⟨rfl, applyDispense_reagent_found p s cmap, hm.1, hm.2⟩

/-- Witness for C2: dispensing 10 uL of a 2 M stock into well (2, 2) of a
fresh plate adds 20 umol at canonical well (1, 1). -/
theorem add_custom_moles_accumulation_witness :
    (testPlate.add_custom (.stock testStock) dmC2).error = none ∧
    ((testPlate.add_custom (.stock testStock) dmC2).plate).molesAt
        (reagentIndex testPlate testStock) 1 1
      = testPlate.molesAt (reagentIndex testPlate testStock) 1 1
        + lookupVol cmC2 1 1 * testStock.concentration := by
  obtain ⟨h1, h2, h3, h4⟩ := add_custom_moles_accumulation testPlate testStock dmC2 cmC2
    (by unfold Plate.WF; exact ⟨rfl, rfl, rfl⟩) rfl (by decide) (by decide)
  exact ⟨h1, h3 1 1⟩

/-- C3: evaluating the supply ledger on a dispense map with unequal
volumes.  The call succeeds and the map's volumes sum to 40 uL, yet the
ledger records 60 uL for the source: the accumulation statement sits after
the per-well loop, so it adds the final loop volume (30) times the number
of wells (2) instead of the per-well sum. -/
theorem supply_usage_records_last_volume_times_count :
    (testPlate.add_custom (.solvent testSolvent) dmC3).error = none ∧
    (dmC3.map Prod.snd).sum = 40 ∧
    ((testPlate.add_custom (.solvent testSolvent) dmC3).plate).volumes_used
      = [(.solvent testSolvent, 60)] :=
  ⟨rfl, by decide, by decide⟩

/-- C4: a dispense map containing two distinct location encodings that
resolve to the same canonical well is rejected with DuplicateDestination,
and the returned plate is exactly the input plate: volumes, moles,
reagents, supply usage and instruction log are all unchanged. -/
theorem add_custom_duplicate_destination (p : Plate) (what : Source)
    (dm : List (Loc × ℚ)) (hne : dm.isEmpty = false)
    (hval : dm.all entryOk = true)
    (hres : dm.all (fun kv => resolvesOk p kv.1) = true)
    (hdup : ¬ (dm.map (fun kv => p.get_canonical_form kv.1)).Nodup) :
    p.add_custom what dm = ⟨p, false, some .duplicateDestination⟩ := by
  have hres2 : ∀ kv ∈ dm, ∃ rc, p.get_canonical_form kv.1 = .ok rc := by
    intro kv hkv
    cases hx : p.get_canonical_form kv.1 with
    | ok rc => exact ⟨rc, rfl⟩
    | error e =>
      have hh := List.all_eq_true.1 hres kv hkv
      simp [resolvesOk, hx] at hh
  exact add_custom_error_reduce hne hval (canonicalize_dup_error hres2 (Or.inl hdup))

/-- Witness for C4: the string A:1 and the tuple (1, 1) resolve to the
same canonical well (0, 0), and the call leaves the plate untouched. -/
theorem add_custom_duplicate_destination_witness :
    testPlate.add_custom (.solvent testSolvent) dmC4
      = ⟨testPlate, false, some .duplicateDestination⟩ :=
  add_custom_duplicate_destination testPlate (.solvent testSolvent) dmC4
    rfl (by decide) (by decide) (by decide)

/-- C5: an add_custom call that pushes the maximum accumulated well volume
above the plate limit still succeeds: no error, the warning flag is set,
and the committed state is exactly the ordinary dispense result. -/
theorem add_custom_overflow_commits (p : Plate) (what : Source)
    (dm : List (Loc × ℚ)) (cmap : List ((Nat × Nat) × ℚ))
    (hne : dm.isEmpty = false) (hval : dm.all entryOk = true)
    (hcan : canonicalize p dm [] = .ok cmap)
    (hover : p.max_volume_per_well
      < gridMax (applyVolumes p.volumes cmap) p.n_rows p.n_columns) :
    (p.add_custom what dm).error = none ∧
    (p.add_custom what dm).warned = true ∧
    (p.add_custom what dm).plate = (applyDispense p what cmap).1 ∧
    ((p.add_custom what dm).plate).volumes = applyVolumes p.volumes cmap ∧
    ((p.add_custom what dm).plate).instructions = p.instructions ++ [(what, cmap)] := by
  rw [add_custom_reduce hne hval hcan]
  refine ⟨rfl, ?_, rfl, applyDispense_volumes .., applyDispense_instructions ..⟩
  show (applyDispense p what cmap).2 = true
  rw [applyDispense_warned]
  exact decide_eq_true hover

/-- Witness for C5: dispensing 150 uL into one well of a 100 uL plate is
committed with only the warning flag set. -/
theorem add_custom_overflow_commits_witness :
    (testPlate.add_custom (.solvent testSolvent) dmC5).error = none ∧
    (testPlate.add_custom (.solvent testSolvent) dmC5).warned = true ∧
    (testPlate.add_custom (.solvent testSolvent) dmC5).plate
      = (applyDispense testPlate (.solvent testSolvent) cmC5).1 ∧
    ((testPlate.add_custom (.solvent testSolvent) dmC5).plate).volumes
      = applyVolumes testPlate.volumes cmC5 ∧
    ((testPlate.add_custom (.solvent testSolvent) dmC5).plate).instructions
      = testPlate.instructions ++ [(.solvent testSolvent, cmC5)] :=
  add_custom_overflow_commits testPlate (.solvent testSolvent) dmC5 cmC5
    rfl (by decide) (by decide) (by decide)

/-- C6 counterexample: on a 2 by 2 plate the zero-indexed canonical pair
(0, 0) is in range, yet resolution rejects it instead of returning it
unchanged, because integer components are read as 1-indexed. -/
theorem canonical_form_not_idempotent :
    0 < testPlate.n_rows ∧ 0 < testPlate.n_columns ∧
    testPlate.get_canonical_form (.pair (.int 0) (.int 0)) = .error .invalidLocation ∧
    testPlate.get_canonical_form (.pair (.int 0) (.int 0)) ≠ .ok (0, 0) :=
  ⟨by decide, by decide, by decide, by decide⟩

/-- C6 amended: canonical-form resolution reads integer components as
1-indexed positions, so an in-range 1-indexed integer pair (r, c) resolves
to (r - 1, c - 1); in particular resolution is not idempotent on
zero-indexed canonical pairs. -/
theorem canonical_form_one_indexed (p : Plate) (r c : Int)
    (h1 : 1 ≤ r) (h2 : r ≤ (p.n_rows : Int)) (h3 : 1 ≤ c)
    (h4 : c ≤ (p.n_columns : Int)) :
    p.get_canonical_form (.pair (.int r) (.int c))
      = .ok ((r - 1).toNat, (c - 1).toNat) := by
  have hr : resolveSpec p.row_names p.n_rows (.int r) = .ok ((r - 1).toNat) := by
    simp only [resolveSpec]
    rw [if_neg (by omega)]
  have hc : resolveSpec p.column_names p.n_columns (.int c) = .ok ((c - 1).toNat) := by
    simp only [resolveSpec]
    rw [if_neg (by omega)]
  unfold Plate.get_canonical_form
  simp only [splitLoc, hr, hc]

/-- Witness for the amended C6: (2, 1) on the 2 by 2 test plate resolves
to (1, 0). -/
theorem canonical_form_one_indexed_witness :
    testPlate.get_canonical_form (.pair (.int 2) (.int 1)) = .ok (1, 0) :=
  canonical_form_one_indexed testPlate 2 1 (by decide) (by decide) (by decide) (by decide)

/-- C7 counterexample: a plate built from integer row and column counts
constructs successfully, yet its row names are the numeric strings 1 and
2, and 1 parses as an integer — the non-numeric-name constraint is only
enforced for list-supplied names. -/
theorem numeric_row_names_from_count :
    (mkPlate nmP nmM (.count 2) (.count 2) 100).map Plate.row_names
      = .ok [oneStr, twoStr] ∧ is_integer oneStr = true :=
  ⟨by decide, by decide⟩

/-- C7 amended: on every successfully constructed plate the row and column
names given as lists are unique non-blank strings that do not parse as
integers, while an integer count n generates the numeric names 1..n; the
name lists are never changed by dispensing. -/
theorem plate_name_validation (name make : String) (rows columns : AxisSpec)
    (mv : ℚ) (p : Plate) (h : mkPlate name make rows columns mv = .ok p) :
    (∀ l, rows = .names l →
      p.row_names.Nodup ∧ ∀ s ∈ p.row_names, is_integer s = false) ∧
    (∀ l, columns = .names l →
      p.column_names.Nodup ∧ ∀ s ∈ p.column_names, is_integer s = false) ∧
    (∀ n, rows = .count n →
      p.row_names = (List.range n.toNat).map (fun i => toString (i + 1))) ∧
    (∀ n, columns = .count n →
      p.column_names = (List.range n.toNat).map (fun i => toString (i + 1))) ∧
    (∀ what dm, ((p.add_custom what dm).plate).row_names = p.row_names ∧
      ((p.add_custom what dm).plate).column_names = p.column_names) := by
  obtain ⟨rn, cn, hrn, hcn, rfl⟩ := mkPlate_ok h
  refine ⟨?_, ?_, ?_, ?_,
    fun what dm => ⟨add_custom_row_names .., add_custom_column_names ..⟩⟩
  · intro l hl
    subst hl
    obtain ⟨rfl, hnd, hni⟩ := axisNames_names_ok hrn
    exact ⟨hnd, hni⟩
  · intro l hl
    subst hl
    obtain ⟨rfl, hnd, hni⟩ := axisNames_names_ok hcn
    exact ⟨hnd, hni⟩
  · intro n hn
    subst hn
    exact axisNames_count_ok hrn
  · intro n hn
    subst hn
    exact axisNames_count_ok hcn

/-- Witness for the amended C7: the test plate's list-supplied row names
are unique, the name A does not parse as an integer, and dispensing does
not change the row names. -/
theorem plate_name_validation_witness :
    testPlate.row_names.Nodup ∧ is_integer rowA = false ∧
    ((testPlate.add_custom (.solvent testSolvent) dmC1).plate).row_names
      = testPlate.row_names := by
  obtain ⟨hr, hcol, hcount, hcount2, hpres⟩ := plate_name_validation nmP nmM
    (.names [rowA, rowB]) (.names [colX, colY]) 100 testPlate rfl
  obtain ⟨hnd, hni⟩ := hr [rowA, rowB] rfl
  exact ⟨hnd, hni rowA (by decide), (hpres (.solvent testSolvent) dmC1).1⟩

/-- C8: constructing a stock solution whose base is itself a stock
solution fails with DilutionConsistency whenever the requested
concentration is at or above the base's concentration; no object is
produced. -/
theorem dilution_must_be_more_dilute (b : StockSolution) (concentration : ℚ)
    (solvent : Solvent) (volume : ℚ) (h : b.concentration ≤ concentration) :
    mkStockSolution (.stock b) concentration solvent volume
      = .error .dilutionConsistency := by
  simp only [mkStockSolution]
  rw [if_pos h]

/-- Witness for C8: re-concentrating a 2 M stock at 2 M is rejected. -/
theorem dilution_must_be_more_dilute_witness :
    mkStockSolution (.stock testStock) 2 testSolvent 1
      = .error .dilutionConsistency :=
  dilution_must_be_more_dilute testStock 2 testSolvent 1 (by decide)

theorem buildFillMap_all_target {g : Grid} {target : ℚ} {cells : List (Nat × Nat)}
    (h : ∀ rc ∈ cells, g rc.1 rc.2 = target) :
    buildFillMap g target cells = .ok [] := by
  induction cells with
  | nil => rfl
  | cons rc rest ih =>
    obtain ⟨r, c⟩ := rc
    have h0 : g r c = target := h (r, c) (List.mem_cons_self _ _)
    simp only [buildFillMap, h0, sub_self]
    rw [if_neg (lt_irrefl 0), if_neg (lt_irrefl 0)]
    exact ih (fun x hx => h x (List.mem_cons_of_mem _ hx))

/-- C9: when every well of the rectangle already holds exactly the target
volume, fill_block_up_to_volume builds an empty dispense map and the call
fails in add_custom's empty-map check, leaving the plate unchanged, rather
than succeeding as a zero-volume no-op. -/
theorem fill_block_noop_rejected (p : Plate) (what : Source) (target : ℚ)
    (ul br : Loc) (fr fc lr lc : Nat)
    (hul : p.get_canonical_form ul = .ok (fr, fc))
    (hbr : p.get_canonical_form br = .ok (lr, lc))
    (hr : fr ≤ lr) (hc : fc ≤ lc)
    (hpos : 0 < target) (hmax : target ≤ p.max_volume_per_well)
    (hall : ∀ rc ∈ blockCells fr fc lr lc, p.volumes rc.1 rc.2 = target) :
    p.fill_block_up_to_volume what target ul br
      = ⟨p, false, some .invalidArgument⟩ := by
  unfold Plate.fill_block_up_to_volume
  rw [if_neg (not_le.2 hpos), if_neg (not_lt.2 hmax)]
  simp only [hul, hbr]
  rw [if_neg (by omega)]
  simp only [buildFillMap_all_target hall]
  simp [Plate.add_custom]

/-- Witness for C9: filling a 2 by 2 block of a plate whose wells all hold
50 uL up to 50 uL is rejected and the plate is unchanged. -/
theorem fill_block_noop_rejected_witness :
    plate50.fill_block_up_to_volume (.solvent testSolvent) 50
        (.pair (.int 1) (.int 1)) (.pair (.int 2) (.int 2))
      = ⟨plate50, false, some .invalidArgument⟩ :=
  fill_block_noop_rejected plate50 (.solvent testSolvent) 50
    (.pair (.int 1) (.int 1)) (.pair (.int 2) (.int 2)) 0 0 1 1
    (by decide) (by decide) (by decide) (by decide) (by decide) (by decide)
    (by decide)

/-- C10: fill_block_up_to_volume rejects a non-positive target volume or
one above the plate's per-well maximum before any state change, unlike the
dispensing primitive, which commits over-capacity volumes with only a
warning. -/
theorem fill_block_target_validated (p : Plate) (what : Source) (target : ℚ)
    (ul br : Loc) (h : target ≤ 0 ∨ p.max_volume_per_well < target) :
    p.fill_block_up_to_volume what target ul br
      = ⟨p, false, some .invalidArgument⟩ := by
  unfold Plate.fill_block_up_to_volume
  rcases h with h | h
  · rw [if_pos h]
  · by_cases h0 : target ≤ 0
    · rw [if_pos h0]
    · rw [if_neg h0, if_pos h]

/-- Witness for C10: a 150 uL target on a 100 uL-per-well plate is
rejected with the plate unchanged. -/
theorem fill_block_target_validated_witness :
    testPlate.fill_block_up_to_volume (.solvent testSolvent) 150
        (.pair (.int 1) (.int 1)) (.pair (.int 1) (.int 1))
      = ⟨testPlate, false, some .invalidArgument⟩ :=
  fill_block_target_validated testPlate (.solvent testSolvent) 150
    (.pair (.int 1) (.int 1)) (.pair (.int 1) (.int 1)) (Or.inr (by decide))
